import Mathlib

/-!
Verification development for the notification reconciliation and
deduplication engine of the xiaohongshu-mcp repository.

The persistent status store (SQLite table keyed by notification id) is
embedded as a list of rows; each store operation from the source
(UpsertNotifications, MarkResult, GetPendingRecords,
AutoSkipExcessiveRetries) is translated into a pure function on that
list.  The wall clock (time.Now().Unix()) is passed explicitly as an
integer argument.  The scan-lower-bound computation of
handleGetUnprocessedNotifications and the helper functions
extractSinceUnixFromIDs / parseIDSet are embedded as pure functions as
well.
-/

/-- Enumeration of the status column, mirroring the Go constants
StatusPending / StatusReplied / StatusSkipped / StatusRetry /
StatusDeletedCheck. -/
inductive NotificationStatus
  | pending
  | replied
  | skipped
  | retry
  | deletedCheck
deriving DecidableEq

/-- One row of the notifications table (Go struct NotificationRecord).
Integer columns are modelled as Int (Go int / int64). -/
structure NotificationRecord where
  ID : String
  Status : NotificationStatus
  RetryCount : Int
  FeedID : String
  XsecToken : String
  CommentID : String
  ParentCommentID : String
  CommentContent : String
  UserID : String
  UserNickname : String
  NoteTitle : String
  RelationType : String
  NotifTimeUnix : Int
  ReplyContent : String
  UpdatedAt : Int
  CreatedAt : Int
deriving DecidableEq

/-- The notifications table, as the list of its rows. -/
abbrev Store : Type := List NotificationRecord

/-- Lookup of the row with the given primary key (SELECT ... WHERE id=?). -/
def getRecord (st : Store) (id : String) : Option NotificationRecord :=
  List.find? (fun r => r.ID = id) st

/-- Whether a row with the given id exists (what drives INSERT OR IGNORE
and the RowsAffected check of MarkResult). -/
def hasID (st : Store) (id : String) : Bool :=
  List.any st (fun r => r.ID = id)

/-- The row inserted for a batch element by UpsertNotifications: the
INSERT OR IGNORE statement lists the display columns and created_at /
updated_at, sets status to StatusPending, and leaves retry_count and
reply_content at their schema defaults (0 and the empty string). -/
def freshUpsertRecord (r : NotificationRecord) (now : Int) : NotificationRecord :=
  { ID := r.ID
    Status := .pending
    RetryCount := 0
    FeedID := r.FeedID
    XsecToken := r.XsecToken
    CommentID := r.CommentID
    ParentCommentID := r.ParentCommentID
    CommentContent := r.CommentContent
    UserID := r.UserID
    UserNickname := r.UserNickname
    NoteTitle := r.NoteTitle
    RelationType := r.RelationType
    NotifTimeUnix := r.NotifTimeUnix
    ReplyContent := ""
    UpdatedAt := now
    CreatedAt := now }

/-- UpsertNotifications: one INSERT OR IGNORE per batch element, executed
in order inside a single transaction; an element whose id is already
present (in the table or inserted earlier in the same batch) is ignored. -/
def UpsertNotifications (st : Store) (records : List NotificationRecord) (now : Int) : Store :=
  records.foldl
    (fun acc r => if hasID acc r.ID then acc else acc ++ [freshUpsertRecord r now]) st

/-- The update applied by MarkResult's UPDATE statement to a matching
row: status, reply_content and updated_at are set, and retry_count is
incremented when the new status is retry. -/
def markUpdate (r : NotificationRecord) (status : NotificationStatus)
    (replyContent : String) (now : Int) : NotificationRecord :=
  { r with
    Status := status
    ReplyContent := replyContent
    UpdatedAt := now
    RetryCount := if status = .retry then r.RetryCount + 1 else r.RetryCount }

/-- The row inserted by MarkResult when the UPDATE affected no rows: only
id, status, reply_content, updated_at and created_at are given, the other
columns take their schema defaults. -/
def markInsertRecord (id : String) (status : NotificationStatus)
    (replyContent : String) (now : Int) : NotificationRecord :=
  { ID := id
    Status := status
    RetryCount := 0
    FeedID := ""
    XsecToken := ""
    CommentID := ""
    ParentCommentID := ""
    CommentContent := ""
    UserID := ""
    UserNickname := ""
    NoteTitle := ""
    RelationType := ""
    NotifTimeUnix := 0
    ReplyContent := replyContent
    UpdatedAt := now
    CreatedAt := now }

/-- MarkResult: UPDATE the row with the given id; when RowsAffected is 0
(no row with that id), INSERT a fresh row directly in the target status. -/
def MarkResult (st : Store) (id : String) (status : NotificationStatus)
    (replyContent : String) (now : Int) : Store :=
  let st2 : Store := List.map (fun r => if r.ID = id then markUpdate r status replyContent now else r) st
  if hasID st id then st2 else st2 ++ [markInsertRecord id status replyContent now]

/-- Whether a status is one of the open states pending / retry /
deleted_check (the WHERE status IN (...) filter of GetPendingRecords). -/
def isOpenStatus : NotificationStatus → Bool
  | .pending => true
  | .retry => true
  | .deletedCheck => true
  | _ => false

/-- Insertion step of the ORDER BY notif_time_unix DESC ordering. -/
def insertByTimeDesc (r : NotificationRecord) : List NotificationRecord → List NotificationRecord
  | [] => [r]
  | x :: xs => if x.NotifTimeUnix < r.NotifTimeUnix then r :: x :: xs else x :: insertByTimeDesc r xs

/-- Sorting by notif_time_unix descending (ORDER BY notif_time_unix DESC). -/
def sortByTimeDesc (l : List NotificationRecord) : List NotificationRecord :=
  l.foldr insertByTimeDesc []

/-- GetPendingRecords: SELECT the full rows WHERE status IN
('pending','retry','deleted_check') ORDER BY notif_time_unix DESC. -/
def GetPendingRecords (st : Store) : List NotificationRecord :=
  sortByTimeDesc (st.filter (fun r => isOpenStatus r.Status))

/-- The fixed explanatory reply_content written by
AutoSkipExcessiveRetries. -/
def autoSkipReplyContent : String := "自动跳过：重试次数超过上限"

/-- The conditional update applied to a single row by the UPDATE
statement of AutoSkipExcessiveRetries: a row WHERE status='retry' AND
retry_count >= maxRetries becomes skipped with the fixed reply_content
and a fresh updated_at, any other row is unchanged. -/
def autoSkipUpdate (maxRetries : Int) (now : Int) (r : NotificationRecord) : NotificationRecord :=
  if r.Status = .retry ∧ maxRetries ≤ r.RetryCount then
    { r with Status := .skipped, ReplyContent := autoSkipReplyContent, UpdatedAt := now }
  else r

/-- AutoSkipExcessiveRetries: UPDATE every row WHERE status='retry' AND
retry_count >= maxRetries to skipped with the fixed reply_content and a
fresh updated_at; the returned number is RowsAffected, i.e. the number of
matching rows. -/
def AutoSkipExcessiveRetries (st : Store) (maxRetries : Int) (now : Int) : Nat × Store :=
  (st.countP (fun r => decide (r.Status = .retry) && decide (maxRetries ≤ r.RetryCount)),
   List.map (autoSkipUpdate maxRetries now) st)

/-- Characters treated as white space by Go's unicode.IsSpace (used both
by fmt's scanner to skip leading space and by strings.TrimSpace). -/
def goSpaceChars : List Char :=
  ['\t', '\n', Char.ofNat 11, Char.ofNat 12, '\r', ' ',
   Char.ofNat 0x85, Char.ofNat 0xA0, Char.ofNat 0x1680,
   Char.ofNat 0x2000, Char.ofNat 0x2001, Char.ofNat 0x2002, Char.ofNat 0x2003,
   Char.ofNat 0x2004, Char.ofNat 0x2005, Char.ofNat 0x2006, Char.ofNat 0x2007,
   Char.ofNat 0x2008, Char.ofNat 0x2009, Char.ofNat 0x200A,
   Char.ofNat 0x2028, Char.ofNat 0x2029, Char.ofNat 0x202F,
   Char.ofNat 0x205F, Char.ofNat 0x3000]

/-- Decidable white-space test matching Go's unicode.IsSpace. -/
def goIsSpace (c : Char) : Bool := goSpaceChars.contains c

/-- The leading-space skipping of fmt's scanner in the Sscanf family
(nlIsSpace = false): white-space runes before the number are consumed,
but a newline makes the scan fail with "unexpected newline" — also when
it is reached through a carriage return directly followed by it (the
scanner consumes the '\r' and then errors on the '\n'); a lone carriage
return is ordinary white space.  Returns the remaining input, or none on
the newline error. -/
def skipSpaceScanf : List Char → Option (List Char)
  | [] => some []
  | c :: cs =>
    if c = '\n' then none
    else if c = '\r' then
      match cs with
      | '\n' :: _ => none
      | _ => skipSpaceScanf cs
    else if goIsSpace c then skipSpaceScanf cs
    else some (c :: cs)

/-- Parsing an identifier as an unsigned 64-bit integer, the way
fmt.Sscanf(id, "%d", &v) with v uint64 does: skip leading white space
(failing on a newline, which Sscanf does not treat as space), then read a
non-empty run of ASCII decimal digits (no sign; trailing non-digit input
is permitted and ignored), failing on overflow past 2^64 - 1 or when no
digit is present. -/
def parseGoUint (s : String) : Option Nat :=
  match skipSpaceScanf s.data with
  | none => none
  | some rest =>
    let ds := rest.takeWhile Char.isDigit
    if ds.isEmpty then none
    else
      let v := ds.foldl (fun acc c => acc * 10 + (c.toNat - 48)) 0
      if v < 2 ^ 64 then some v else none

/-- The newline error path of the scanner: a leading newline (also behind
a carriage return) makes the identifier contribute nothing, while other
leading white space is skipped. -/
theorem parseGoUint_newline_behavior :
    parseGoUint "\n123" = none ∧ parseGoUint "\r\n123" = none ∧
    parseGoUint " 123" = some 123 ∧ parseGoUint "\r123" = some 123 ∧
    parseGoUint "\t123" = some 123 := by decide

/-- The value an identifier contributes to the minimum computation of
extractSinceUnixFromIDs: none when parsing fails or yields zero. -/
def parsedNonzeroID (s : String) : Option Nat :=
  match parseGoUint s with
  | none => none
  | some v => if v = 0 then none else some v

/-- Decoding of the creation time (Unix seconds) embedded in a snowflake
identifier: the identifier shifted right by 22 bits is a millisecond
offset from the epoch 2013-01-01 00:00:00 UTC (1356998400000 ms), and the
sum is divided by 1000.  All quantities are non-negative and far below
2^63, so Nat arithmetic coincides with the Go int64 arithmetic. -/
def decodeTimeSec (v : Nat) : Int :=
  ((1356998400000 + v / 4194304) / 1000 : Nat)

/-- One step of the running-minimum loop of extractSinceUnixFromIDs
(Go: if minID == 0 || v < minID, minID = v). -/
def minStep (acc v : Nat) : Nat :=
  if acc = 0 ∨ v < acc then v else acc

/-- The running minimum over all identifiers of all sets, with 0 as the
"nothing seen yet" sentinel; identifiers that fail to parse or parse to 0
are skipped. -/
def minIDFold (sets : List (List String)) : Nat :=
  sets.foldl
    (fun acc set =>
      set.foldl
        (fun a id =>
          match parsedNonzeroID id with
          | none => a
          | some v => minStep a v)
        acc)
    0

/-- extractSinceUnixFromIDs: scan every identifier of every given set,
keep the minimum of the values that parse to a nonzero unsigned integer,
and return 0 when there is none, else the decoded creation time of the
minimum identifier with a 300 second safety margin subtracted. -/
def extractSinceUnixFromIDs (sets : List (List String)) : Int :=
  if minIDFold sets = 0 then 0 else decodeTimeSec (minIDFold sets) - 300

/-- The since_unix computation of handleGetUnprocessedNotifications
(src/mcp_handlers.go lines 852-861): since_hours defaults to 48 when the
argument is absent or non-positive; the scan lower bound is
extractSinceUnixFromIDs over the processed and retry ID sets, and only
when that is 0 does it fall back to now - since_hours*3600. -/
def computeSinceUnix (processedIDs retryIDs : List String)
    (sinceHoursRaw : Int) (now : Int) : Int :=
  let sinceHours : Int := if sinceHoursRaw ≤ 0 then 48 else sinceHoursRaw
  let sinceUnix := extractSinceUnixFromIDs [processedIDs, retryIDs]
  if sinceUnix = 0 then now - sinceHours * 3600 else sinceUnix

/-- A notification returned by a scan, as far as the missing-retry
reporting of handleGetUnprocessedNotifications needs it. -/
structure ScanNotification where
  NotificationID : String
  IsRetry : Bool
deriving DecidableEq

/-- The seen-ID set built by handleGetUnprocessedNotifications from the
returned notifications. -/
def seenIDsOf (notifs : List ScanNotification) : List String :=
  notifs.map (fun n => n.NotificationID)

/-- The missing-retry list of handleGetUnprocessedNotifications: the
members of retry_ids that do not occur among the returned notifications
(these are printed as a separate warning block in the tool output). -/
def missingRetryIDs (retryIDs : List String) (notifs : List ScanNotification) : List String :=
  retryIDs.filter (fun id => !(seenIDsOf notifs).contains id)

/-- A dynamically typed argument value as seen by parseIDSet through
Go's interface type switch: nil, a string, a JSON array, or any value of
another type. -/
inductive GoValue
  | nullV
  | strV (s : String)
  | arrV (elems : List GoValue)
  | otherV

/-- Set insertion into the result map of parseIDSet (map insertion order,
first occurrence wins). -/
def insertID (acc : List String) (s : String) : List String :=
  if acc.contains s then acc else acc ++ [s]

/-- Character-list splitter behind goSplitComma. -/
def splitCommaChars : List Char → List (List Char)
  | [] => [[]]
  | c :: cs =>
    match splitCommaChars cs with
    | [] => [[c]]
    | h :: t => if c = ',' then [] :: h :: t else (c :: h) :: t

/-- Go's strings.Split(s, ",") : the maximal comma-free runs, with one
part per comma plus one, and [""] for the empty string. -/
def goSplitComma (s : String) : List String :=
  (splitCommaChars s.data).map fun l => String.mk l

/-- Go's strings.TrimSpace: remove leading and trailing white space. -/
def goTrimSpace (s : String) : String :=
  String.mk (((s.data.dropWhile goIsSpace).reverse.dropWhile goIsSpace).reverse)

/-- parseIDSet: a JSON array contributes its non-empty string elements
(other element types are silently dropped); a string is split on commas,
each part trimmed, and non-empty parts contribute; nil and every other
type yield the empty set. -/
def parseIDSet : GoValue → List String
  | .arrV elems =>
    elems.foldl
      (fun acc e =>
        match e with
        | .strV s => if s = "" then acc else insertID acc s
        | _ => acc)
      []
  | .strV val =>
    if val = "" then []
    else
      (goSplitComma val).foldl
        (fun acc part =>
          let idTrimmed := goTrimSpace part
          if idTrimmed = "" then acc else insertID acc idTrimmed)
        []
  | .nullV => []
  | .otherV => []

/-- A mutating operation on the notification store, for stating trace
invariants over sequences of store calls. -/
inductive StoreOp
  | upsert (records : List NotificationRecord) (now : Int)
  | mark (id : String) (status : NotificationStatus) (replyContent : String) (now : Int)
  | autoSkip (maxRetries : Int) (now : Int)

/-- Effect of one store operation on the table. -/
def applyOp (st : Store) : StoreOp → Store
  | .upsert records now => UpsertNotifications st records now
  | .mark id status reply now => MarkResult st id status reply now
  | .autoSkip maxRetries now => (AutoSkipExcessiveRetries st maxRetries now).2

/-- Effect of a sequence of store operations, first operation first. -/
def applyOps (st : Store) (ops : List StoreOp) : Store :=
  ops.foldl applyOp st

/-- Number of MarkResult calls with status retry on the given id in a
sequence of operations. -/
def countRetryMarks (id : String) (ops : List StoreOp) : Nat :=
  ops.countP fun op =>
    match op with
    | .mark id2 status _ _ => decide (id2 = id) && decide (status = .retry)
    | _ => false

theorem getRecord_some_ID {st : Store} {id : String} {r : NotificationRecord}
    (h : getRecord st id = some r) : r.ID = id := by
  have h2 := List.find?_some h
  simpa using h2

theorem getRecord_cons {a : NotificationRecord} {st : Store} {id : String} :
    getRecord (a :: st) id = if a.ID = id then some a else getRecord st id := by
  by_cases h : a.ID = id
  · simp [getRecord, List.find?_cons_of_pos, h]
  · simp [getRecord, List.find?_cons_of_neg, h]

theorem hasID_cons {a : NotificationRecord} {st : Store} {id : String} :
    hasID (a :: st) id = (decide (a.ID = id) || hasID st id) := by
  simp [hasID]

theorem hasID_false_iff {st : Store} {id : String} :
    hasID st id = false ↔ getRecord st id = none := by
  induction st with
  | nil => simp [hasID, getRecord]
  | cons a l ih =>
    by_cases h : a.ID = id
    · simp [hasID_cons, getRecord_cons, h]
    · simp [hasID_cons, getRecord_cons, h, ih]

theorem hasID_true_iff {st : Store} {id : String} :
    hasID st id = true ↔ ∃ r, getRecord st id = some r := by
  rcases h : getRecord st id with _ | r
  · constructor
    · intro htrue
      exact absurd (hasID_false_iff.mpr h) (by simp [htrue])
    · rintro ⟨r, hr⟩
      simp [h] at hr
  · constructor
    · intro _
      exact ⟨r, rfl⟩
    · intro _
      by_contra hfalse
      have : hasID st id = false := by
        cases hb : hasID st id
        · rfl
        · exact absurd hb hfalse
      simp [hasID_false_iff.mp this] at h

theorem getRecord_append_some {st l2 : Store} {id : String} {r : NotificationRecord}
    (h : getRecord st id = some r) : getRecord (st ++ l2) id = some r := by
  induction st with
  | nil => simp [getRecord] at h
  | cons a l ih =>
    rw [getRecord_cons] at h
    by_cases ha : a.ID = id
    · simp [ha] at h
      subst h
      simp [getRecord_cons, ha]
    · simp [ha] at h
      simpa [getRecord_cons, ha] using ih h

theorem getRecord_append_none {st l2 : Store} {id : String}
    (h : getRecord st id = none) : getRecord (st ++ l2) id = getRecord l2 id := by
  induction st with
  | nil => simp
  | cons a l ih =>
    rw [getRecord_cons] at h
    by_cases ha : a.ID = id
    · simp [ha] at h
    · simp [ha] at h
      simpa [getRecord_cons, ha] using ih h

theorem getRecord_map {st : Store} {id : String} {f : NotificationRecord → NotificationRecord}
    (hf : ∀ x, (f x).ID = x.ID) :
    getRecord (st.map f) id = (getRecord st id).map f := by
  induction st with
  | nil => simp [getRecord]
  | cons a l ih =>
    by_cases ha : a.ID = id
    · have : (f a).ID = id := by rw [hf a, ha]
      simp [getRecord_cons, ha, this]
    · have : ¬ (f a).ID = id := by rw [hf a]; exact ha
      simp [getRecord_cons, ha, this, ih]

theorem UpsertNotifications_nil {st : Store} {now : Int} :
    UpsertNotifications st [] now = st := rfl

theorem UpsertNotifications_cons {st : Store} {r : NotificationRecord}
    {rest : List NotificationRecord} {now : Int} :
    UpsertNotifications st (r :: rest) now =
      UpsertNotifications (if hasID st r.ID then st else st ++ [freshUpsertRecord r now]) rest now := rfl

theorem hasID_append {st l2 : Store} {x : String} :
    hasID (st ++ l2) x = (hasID st x || hasID l2 x) := by
  simp [hasID, List.any_append]

theorem freshUpsertRecord_ID {r : NotificationRecord} {now : Int} :
    (freshUpsertRecord r now).ID = r.ID := rfl

theorem hasID_UpsertNotifications {batch : List NotificationRecord} {st : Store}
    {now : Int} {x : String} :
    hasID (UpsertNotifications st batch now) x =
      (hasID st x || batch.any (fun r => decide (r.ID = x))) := by
  induction batch generalizing st with
  | nil => simp [UpsertNotifications_nil]
  | cons r rest ih =>
    rw [UpsertNotifications_cons]
    by_cases h : hasID st r.ID
    · by_cases hx : r.ID = x
      · have : hasID st x = true := by rw [← hx]; exact h
        simp [h, ih, this]
      · simp [h, ih, hx]
    · have hfalse : hasID st r.ID = false := by simpa using h
      rw [if_neg (by simp [hfalse])]
      rw [ih, hasID_append]
      by_cases hx : r.ID = x
      · simp [hasID, freshUpsertRecord_ID, hx]
      · simp [hasID, freshUpsertRecord_ID, hx]

theorem UpsertNotifications_all_present {batch : List NotificationRecord} {st : Store}
    {now : Int} (h : ∀ r ∈ batch, hasID st r.ID = true) :
    UpsertNotifications st batch now = st := by
  induction batch with
  | nil => rfl
  | cons r rest ih =>
    rw [UpsertNotifications_cons, if_pos (h r (by simp))]
    exact ih (fun x hx => h x (by simp [hx]))

theorem getRecord_UpsertNotifications {batch : List NotificationRecord} {st : Store}
    {now : Int} {id : String} {r : NotificationRecord}
    (h : getRecord st id = some r) :
    getRecord (UpsertNotifications st batch now) id = some r := by
  induction batch generalizing st with
  | nil => exact h
  | cons b rest ih =>
    rw [UpsertNotifications_cons]
    by_cases hb : hasID st b.ID
    · rw [if_pos hb]
      exact ih h
    · rw [if_neg hb]
      exact ih (getRecord_append_some h)

theorem mem_UpsertNotifications {batch : List NotificationRecord} {st : Store}
    {now : Int} {x : NotificationRecord}
    (h : x ∈ UpsertNotifications st batch now) :
    x ∈ st ∨ (x.Status = .pending ∧ x.RetryCount = 0 ∧ x.ReplyContent = "" ∧
      x.CreatedAt = now ∧ x.UpdatedAt = now) := by
  induction batch generalizing st with
  | nil => exact Or.inl h
  | cons b rest ih =>
    rw [UpsertNotifications_cons] at h
    by_cases hb : hasID st b.ID
    · rw [if_pos hb] at h
      exact ih h
    · rw [if_neg hb] at h
      rcases ih h with hmem | hprops
      · rcases List.mem_append.mp hmem with hs | hf
        · exact Or.inl hs
        · simp at hf
          subst hf
          exact Or.inr ⟨rfl, rfl, rfl, rfl, rfl⟩
      · exact Or.inr hprops

/-- A concrete closed (replied) row, for witnesses. -/
def sampleRecordA : NotificationRecord :=
  { ID := "a"
    Status := .replied
    RetryCount := 2
    FeedID := "f"
    XsecToken := "t"
    CommentID := "c"
    ParentCommentID := ""
    CommentContent := "cc"
    UserID := "u"
    UserNickname := "n"
    NoteTitle := "nt"
    RelationType := "rt"
    NotifTimeUnix := 10
    ReplyContent := "done"
    UpdatedAt := 3
    CreatedAt := 1 }

/-- A concrete scan row with a different id, for witnesses. -/
def sampleRecordB : NotificationRecord :=
  { sampleRecordA with ID := "b", Status := .pending, RetryCount := 0, ReplyContent := "" }

/-- C1: UpsertNotifications is idempotent — a second run with the same
batch (at any later clock value) leaves the store exactly as after the
first run; a record whose id already exists in the store is left
completely untouched; and rows present after the upsert that were not in
the store before are fresh inserts carrying created_at = updated_at = now
(with status pending and the schema defaults). -/
theorem upsert_idempotent_insert_if_absent
    (st : Store) (batch : List NotificationRecord) (now1 now2 : Int) :
    UpsertNotifications (UpsertNotifications st batch now1) batch now2 =
      UpsertNotifications st batch now1 ∧
    (∀ id r, getRecord st id = some r →
      getRecord (UpsertNotifications st batch now1) id = some r) ∧
    (∀ x, x ∈ UpsertNotifications st batch now1 → x ∉ st →
      x.Status = .pending ∧ x.RetryCount = 0 ∧ x.ReplyContent = "" ∧
      x.CreatedAt = now1 ∧ x.UpdatedAt = now1) := by
  refine ⟨?_, ?_, ?_⟩
  · apply UpsertNotifications_all_present
    intro r hr
    rw [hasID_UpsertNotifications]
    have hb : batch.any (fun x => decide (x.ID = r.ID)) = true :=
      List.any_eq_true.mpr ⟨r, hr, by simp⟩
    simp [hb]
  · intro id r h
    exact getRecord_UpsertNotifications h
  · intro x hx hnot
    rcases mem_UpsertNotifications hx with h | h
    · exact absurd h hnot
    · exact h

theorem upsert_idempotent_insert_if_absent_witness :
    getRecord (UpsertNotifications [sampleRecordA] [sampleRecordB] 100) "a" = some sampleRecordA :=
  (upsert_idempotent_insert_if_absent [sampleRecordA] [sampleRecordB] 100 100).2.1
    "a" sampleRecordA (by decide)

/-- C2: a record in a closed state (replied or skipped) is untouched by
any later UpsertNotifications call whose batch contains its id: the row,
with all of its fields, is returned unchanged by a primary-key lookup. -/
theorem closed_record_immutable_under_upsert
    (st : Store) (batch : List NotificationRecord) (now : Int) (id : String)
    (r : NotificationRecord) (h : getRecord st id = some r)
    (hclosed : r.Status = .replied ∨ r.Status = .skipped)
    (hin : id ∈ batch.map (fun b => b.ID)) :
    getRecord (UpsertNotifications st batch now) id = some r :=
  getRecord_UpsertNotifications h

theorem closed_record_immutable_under_upsert_witness :
    getRecord (UpsertNotifications [sampleRecordA] [{ sampleRecordB with ID := "a" }] 100) "a" =
      some sampleRecordA :=
  closed_record_immutable_under_upsert [sampleRecordA] [{ sampleRecordB with ID := "a" }] 100
    "a" sampleRecordA (by decide) (Or.inl (by decide)) (by decide)

theorem markUpdate_ID {r : NotificationRecord} {status : NotificationStatus}
    {reply : String} {now : Int} : (markUpdate r status reply now).ID = r.ID := rfl

theorem getRecord_MarkResult_exists {st : Store} {id : String}
    {status : NotificationStatus} {reply : String} {now : Int} {r : NotificationRecord}
    (h : getRecord st id = some r) :
    getRecord (MarkResult st id status reply now) id = some (markUpdate r status reply now) := by
  have hhas : hasID st id = true := hasID_true_iff.mpr ⟨r, h⟩
  have hid : r.ID = id := getRecord_some_ID h
  have hpres : ∀ x : NotificationRecord,
      ((if x.ID = id then markUpdate x status reply now else x) : NotificationRecord).ID = x.ID := by
    intro x
    by_cases hx : x.ID = id
    · simp [hx, markUpdate_ID]
    · simp [hx]
  rw [MarkResult]
  simp only [hhas, if_true]
  rw [getRecord_map hpres, h]
  simp [hid]

theorem getRecord_MarkResult_missing {st : Store} {id : String}
    {status : NotificationStatus} {reply : String} {now : Int}
    (h : getRecord st id = none) :
    getRecord (MarkResult st id status reply now) id =
      some (markInsertRecord id status reply now) := by
  have hhas : hasID st id = false := hasID_false_iff.mpr h
  have hpres : ∀ x : NotificationRecord,
      ((if x.ID = id then markUpdate x status reply now else x) : NotificationRecord).ID = x.ID := by
    intro x
    by_cases hx : x.ID = id
    · simp [hx, markUpdate_ID]
    · simp [hx]
  rw [MarkResult]
  simp only [hhas, Bool.false_eq_true, if_false]
  have hmapped : getRecord (List.map (fun x => if x.ID = id then markUpdate x status reply now else x) st) id = none := by
    rw [getRecord_map hpres, h]
    rfl
  rw [getRecord_append_none hmapped]
  simp [getRecord_cons, markInsertRecord]

theorem getRecord_MarkResult_other {st : Store} {id id2 : String}
    {status : NotificationStatus} {reply : String} {now : Int}
    (hne : id2 ≠ id) :
    getRecord (MarkResult st id2 status reply now) id = getRecord st id := by
  have hpres : ∀ x : NotificationRecord,
      ((if x.ID = id2 then markUpdate x status reply now else x) : NotificationRecord).ID = x.ID := by
    intro x
    by_cases hx : x.ID = id2
    · simp [hx, markUpdate_ID]
    · simp [hx]
  rw [MarkResult]
  by_cases hhas : hasID st id2
  · simp only [hhas, if_true]
    rw [getRecord_map hpres]
    rcases hrec : getRecord st id with _ | r
    · rfl
    · have hid : r.ID = id := getRecord_some_ID hrec
      have : ¬ r.ID = id2 := by rw [hid]; exact fun hc => hne hc.symm
      simp [this]
  · simp only [hhas, Bool.false_eq_true, if_false]
    rcases hrec : getRecord st id with _ | r
    · have hmapped : getRecord (List.map (fun x => if x.ID = id2 then markUpdate x status reply now else x) st) id = none := by
        rw [getRecord_map hpres, hrec]
        rfl
      rw [getRecord_append_none hmapped]
      have hIDins : (markInsertRecord id2 status reply now).ID = id2 := rfl
      rw [getRecord_cons, if_neg (by rw [hIDins]; exact hne)]
      rfl
    · have hid : r.ID = id := getRecord_some_ID hrec
      have hrne : ¬ r.ID = id2 := by rw [hid]; exact fun hc => hne hc.symm
      have hmapped : getRecord (List.map (fun x => if x.ID = id2 then markUpdate x status reply now else x) st) id = some r := by
        rw [getRecord_map hpres, hrec]
        simp [hrne]
      rw [getRecord_append_some hmapped]

/-- C6: MarkResult on an existing record sets status and reply_content to
the given values, stamps updated_at, increments retry_count exactly when
the target status is retry, and leaves every other field unchanged; on a
missing id it does not fail but creates a row directly in the target
status with the given reply_content and fresh timestamps. -/
theorem MarkResult_postcondition (st : Store) (id : String)
    (status : NotificationStatus) (reply : String) (now : Int) :
    (∀ r, getRecord st id = some r →
      getRecord (MarkResult st id status reply now) id =
        some { r with
               Status := status
               ReplyContent := reply
               UpdatedAt := now
               RetryCount := if status = .retry then r.RetryCount + 1 else r.RetryCount }) ∧
    (getRecord st id = none →
      ∃ rNew, getRecord (MarkResult st id status reply now) id = some rNew ∧
        rNew.ID = id ∧ rNew.Status = status ∧ rNew.ReplyContent = reply ∧
        rNew.UpdatedAt = now ∧ rNew.CreatedAt = now ∧ rNew.RetryCount = 0) := by
  constructor
  · intro r h
    exact getRecord_MarkResult_exists h
  · intro h
    exact ⟨markInsertRecord id status reply now, getRecord_MarkResult_missing h,
      rfl, rfl, rfl, rfl, rfl, rfl⟩

theorem MarkResult_postcondition_witness :
    getRecord (MarkResult [sampleRecordB] "b" NotificationStatus.retry "err" 50) "b" =
      some { sampleRecordB with
             Status := NotificationStatus.retry
             ReplyContent := "err"
             UpdatedAt := 50
             RetryCount := if NotificationStatus.retry = NotificationStatus.retry then
               sampleRecordB.RetryCount + 1 else sampleRecordB.RetryCount } :=
  (MarkResult_postcondition [sampleRecordB] "b" NotificationStatus.retry "err" 50).1
    sampleRecordB (by decide)

theorem countRetryMarks_nil {id : String} : countRetryMarks id [] = 0 := rfl

theorem countRetryMarks_cons_upsert {id : String} {records : List NotificationRecord}
    {now : Int} {rest : List StoreOp} :
    countRetryMarks id (StoreOp.upsert records now :: rest) = countRetryMarks id rest := by
  simp [countRetryMarks, List.countP_cons]

theorem countRetryMarks_cons_autoSkip {id : String} {m now : Int} {rest : List StoreOp} :
    countRetryMarks id (StoreOp.autoSkip m now :: rest) = countRetryMarks id rest := by
  simp [countRetryMarks, List.countP_cons]

theorem countRetryMarks_cons_mark {id id2 : String} {status : NotificationStatus}
    {reply : String} {now : Int} {rest : List StoreOp} :
    countRetryMarks id (StoreOp.mark id2 status reply now :: rest) =
      countRetryMarks id rest + (if id2 = id ∧ status = .retry then 1 else 0) := by
  by_cases h1 : id2 = id
  · by_cases h2 : status = .retry
    · simp [countRetryMarks, List.countP_cons, h1, h2]
    · simp [countRetryMarks, List.countP_cons, h1, h2]
  · simp [countRetryMarks, List.countP_cons, h1]

theorem autoSkipUpdate_ID {m now : Int} {r : NotificationRecord} :
    (autoSkipUpdate m now r).ID = r.ID := by
  rw [autoSkipUpdate]
  split <;> rfl

theorem autoSkipUpdate_RetryCount {m now : Int} {r : NotificationRecord} :
    (autoSkipUpdate m now r).RetryCount = r.RetryCount := by
  rw [autoSkipUpdate]
  split <;> rfl

theorem getRecord_autoSkip {st : Store} {m now : Int} {id : String} :
    getRecord (AutoSkipExcessiveRetries st m now).2 id =
      (getRecord st id).map (autoSkipUpdate m now) :=
  getRecord_map (fun _ => autoSkipUpdate_ID)

theorem retry_trace_aux (ops : List StoreOp) (st : Store) (id : String)
    (r : NotificationRecord) (h : getRecord st id = some r) :
    ∃ r2, getRecord (applyOps st ops) id = some r2 ∧
      r2.RetryCount = r.RetryCount + (countRetryMarks id ops : Int) := by
  induction ops generalizing st r with
  | nil => exact ⟨r, h, by simp [countRetryMarks_nil]⟩
  | cons op rest ih =>
    have happ : applyOps st (op :: rest) = applyOps (applyOp st op) rest := rfl
    rw [happ]
    cases op with
    | upsert records now =>
      obtain ⟨r2, h2, h3⟩ := ih (UpsertNotifications st records now) r
        (getRecord_UpsertNotifications h)
      exact ⟨r2, h2, by rw [countRetryMarks_cons_upsert]; exact h3⟩
    | autoSkip m now =>
      have hrec : getRecord (AutoSkipExcessiveRetries st m now).2 id =
          some (autoSkipUpdate m now r) := by
        rw [getRecord_autoSkip, h]
        rfl
      obtain ⟨r2, h2, h3⟩ := ih _ _ hrec
      refine ⟨r2, h2, ?_⟩
      rw [countRetryMarks_cons_autoSkip]
      rw [h3, autoSkipUpdate_RetryCount]
    | mark id2 status reply now =>
      by_cases hid : id2 = id
      · subst hid
        have hrec : getRecord (MarkResult st id2 status reply now) id2 =
            some (markUpdate r status reply now) := getRecord_MarkResult_exists h
        obtain ⟨r2, h2, h3⟩ := ih _ _ hrec
        refine ⟨r2, h2, ?_⟩
        rw [countRetryMarks_cons_mark]
        by_cases hs : status = .retry
        · simp only [hs, and_self, if_true, markUpdate, if_pos] at h3 ⊢
          push_cast
          omega
        · simp only [hs, and_false, if_false, markUpdate, if_neg] at h3 ⊢
          push_cast
          omega
      · have hrec : getRecord (MarkResult st id2 status reply now) id = some r := by
          rw [getRecord_MarkResult_other hid]
          exact h
        obtain ⟨r2, h2, h3⟩ := ih _ _ hrec
        refine ⟨r2, h2, ?_⟩
        rw [countRetryMarks_cons_mark, if_neg (by simp [hid])]
        simpa using h3

/-- C3 (amended): for a record already present in the store, after any
sequence of store operations its retry_count equals its previous
retry_count plus the number of MarkResult calls with status retry on its
id in that sequence, and in particular it is monotonically
non-decreasing.  (The original claim fails for a record auto-created by
an out-of-band MarkResult retry call, which starts at retry_count 0: see
the counterexample.) -/
theorem retry_count_accounting (ops : List StoreOp) (st : Store) (id : String)
    (r : NotificationRecord) (h : getRecord st id = some r) :
    ∃ r2, getRecord (applyOps st ops) id = some r2 ∧
      r2.RetryCount = r.RetryCount + (countRetryMarks id ops : Int) ∧
      r.RetryCount ≤ r2.RetryCount := by
  obtain ⟨r2, h2, h3⟩ := retry_trace_aux ops st id r h
  exact ⟨r2, h2, h3, by omega⟩

theorem retry_count_accounting_witness :
    ∃ r2, getRecord (applyOps [sampleRecordB]
        [StoreOp.mark "b" NotificationStatus.retry "x" 7,
         StoreOp.mark "b" NotificationStatus.retry "y" 8]) "b" = some r2 ∧
      r2.RetryCount = sampleRecordB.RetryCount +
        (countRetryMarks "b"
          [StoreOp.mark "b" NotificationStatus.retry "x" 7,
           StoreOp.mark "b" NotificationStatus.retry "y" 8] : Int) ∧
      sampleRecordB.RetryCount ≤ r2.RetryCount :=
  retry_count_accounting
    [StoreOp.mark "b" NotificationStatus.retry "x" 7,
     StoreOp.mark "b" NotificationStatus.retry "y" 8]
    [sampleRecordB] "b" sampleRecordB (by decide)

/-- C3 counterexample: a single MarkResult call with status retry on an
id absent from the store creates the record with retry_count 0, while the
number of MarkResult retry calls on that id is 1 — so retry_count does
not equal the number of retry calls. -/
theorem retry_count_claim_counterexample :
    (getRecord (applyOps [] [StoreOp.mark "1" NotificationStatus.retry "" 5]) "1").map
        NotificationRecord.RetryCount = some 0 ∧
    countRetryMarks "1" [StoreOp.mark "1" NotificationStatus.retry "" 5] = 1 ∧
    (0 : Int) ≠ (1 : Int) := by decide

/-- A concrete retry row sitting exactly at the threshold, for witnesses. -/
def sampleRetryRecord : NotificationRecord :=
  { sampleRecordB with ID := "r1", Status := .retry, RetryCount := 5 }

/-- C7: AutoSkipExcessiveRetries transitions exactly the records with
status retry and retry_count >= threshold to skipped, stamping the fixed
explanatory reply_content and updated_at; every other record — including
a retry record with retry_count = threshold - 1 and any record in another
status — is untouched; and the returned count is the number of matching
records. -/
theorem auto_skip_threshold_boundary (st : Store) (m now : Int) (id : String)
    (r : NotificationRecord) (h : getRecord st id = some r) :
    (r.Status = .retry → m ≤ r.RetryCount →
      getRecord (AutoSkipExcessiveRetries st m now).2 id =
        some { r with Status := .skipped, ReplyContent := autoSkipReplyContent, UpdatedAt := now }) ∧
    (¬ (r.Status = .retry ∧ m ≤ r.RetryCount) →
      getRecord (AutoSkipExcessiveRetries st m now).2 id = some r) ∧
    (AutoSkipExcessiveRetries st m now).1 =
      st.countP (fun x => decide (x.Status = .retry) && decide (m ≤ x.RetryCount)) := by
  refine ⟨?_, ?_, rfl⟩
  · intro h1 h2
    rw [getRecord_autoSkip, h, Option.map_some', autoSkipUpdate, if_pos ⟨h1, h2⟩]
  · intro hneg
    rw [getRecord_autoSkip, h, Option.map_some', autoSkipUpdate, if_neg hneg]

theorem auto_skip_threshold_boundary_witness :
    getRecord (AutoSkipExcessiveRetries [sampleRetryRecord] 5 77).2 "r1" =
      some { sampleRetryRecord with
             Status := .skipped
             ReplyContent := autoSkipReplyContent
             UpdatedAt := 77 } :=
  (auto_skip_threshold_boundary [sampleRetryRecord] 5 77 "r1" sampleRetryRecord
    (by decide)).1 (by decide) (by decide)

theorem perm_insertByTimeDesc (r : NotificationRecord) (l : List NotificationRecord) :
    List.Perm (insertByTimeDesc r l) (r :: l) := by
  induction l with
  | nil => exact List.Perm.refl _
  | cons x xs ih =>
    rw [insertByTimeDesc]
    by_cases h : x.NotifTimeUnix < r.NotifTimeUnix
    · rw [if_pos h]
    · rw [if_neg h]
      exact (ih.cons x).trans (List.Perm.swap r x xs)

theorem perm_sortByTimeDesc (l : List NotificationRecord) :
    List.Perm (sortByTimeDesc l) l := by
  induction l with
  | nil => exact List.Perm.refl _
  | cons x xs ih =>
    have : sortByTimeDesc (x :: xs) = insertByTimeDesc x (sortByTimeDesc xs) := rfl
    rw [this]
    exact (perm_insertByTimeDesc x (sortByTimeDesc xs)).trans (ih.cons x)

theorem pairwise_insertByTimeDesc (r : NotificationRecord) (l : List NotificationRecord)
    (h : l.Pairwise (fun a b => b.NotifTimeUnix ≤ a.NotifTimeUnix)) :
    (insertByTimeDesc r l).Pairwise (fun a b => b.NotifTimeUnix ≤ a.NotifTimeUnix) := by
  induction l with
  | nil => simp [insertByTimeDesc]
  | cons x xs ih =>
    rw [List.pairwise_cons] at h
    obtain ⟨hx, hxs⟩ := h
    rw [insertByTimeDesc]
    by_cases hlt : x.NotifTimeUnix < r.NotifTimeUnix
    · rw [if_pos hlt]
      refine List.pairwise_cons.mpr ⟨?_, List.pairwise_cons.mpr ⟨hx, hxs⟩⟩
      intro y hy
      rcases List.mem_cons.mp hy with rfl | hy2
      · omega
      · have := hx y hy2
        omega
    · rw [if_neg hlt]
      refine List.pairwise_cons.mpr ⟨?_, ih hxs⟩
      intro y hy
      have hy2 : y ∈ r :: xs := (perm_insertByTimeDesc r xs).mem_iff.mp hy
      rcases List.mem_cons.mp hy2 with rfl | hy3
      · omega
      · exact hx y hy3

theorem pairwise_sortByTimeDesc (l : List NotificationRecord) :
    (sortByTimeDesc l).Pairwise (fun a b => b.NotifTimeUnix ≤ a.NotifTimeUnix) := by
  induction l with
  | nil => simp [sortByTimeDesc]
  | cons x xs ih =>
    exact pairwise_insertByTimeDesc x (sortByTimeDesc xs) ih

/-- C8: GetPendingRecords returns exactly the records whose status is one
of pending, retry, deleted_check (no closed record), as a permutation of
the open-status filter of the store, ordered by notification time
descending (so the most recent record comes first). -/
theorem get_pending_records_spec (st : Store) :
    (∀ r, r ∈ GetPendingRecords st ↔ r ∈ st ∧
      (r.Status = .pending ∨ r.Status = .retry ∨ r.Status = .deletedCheck)) ∧
    (GetPendingRecords st).Pairwise (fun a b => b.NotifTimeUnix ≤ a.NotifTimeUnix) ∧
    List.Perm (GetPendingRecords st) (st.filter (fun r => isOpenStatus r.Status)) := by
  refine ⟨?_, pairwise_sortByTimeDesc _, perm_sortByTimeDesc _⟩
  intro r
  rw [GetPendingRecords]
  rw [(perm_sortByTimeDesc (st.filter (fun r => isOpenStatus r.Status))).mem_iff]
  rw [List.mem_filter]
  have hstat : isOpenStatus r.Status = true ↔
      (r.Status = .pending ∨ r.Status = .retry ∨ r.Status = .deletedCheck) := by
    cases hs : r.Status <;> simp [isOpenStatus]
  rw [hstat]

theorem get_pending_records_spec_witness :
    sampleRecordB ∈ GetPendingRecords [sampleRecordA, sampleRecordB] :=
  ((get_pending_records_spec [sampleRecordA, sampleRecordB]).1 sampleRecordB).mpr
    ⟨by decide, Or.inl (by decide)⟩

/-- All values contributed to the minimum computation: every identifier
of every set that parses to a nonzero unsigned integer. -/
def allParsedIDs (sets : List (List String)) : List Nat :=
  (sets.map (fun set => set.filterMap parsedNonzeroID)).flatten

theorem inner_fold_eq (set : List String) (acc : Nat) :
    set.foldl
      (fun a id =>
        match parsedNonzeroID id with
        | none => a
        | some v => minStep a v)
      acc
    = (set.filterMap parsedNonzeroID).foldl minStep acc := by
  induction set generalizing acc with
  | nil => rfl
  | cons s rest ih =>
    rw [List.foldl_cons, List.filterMap_cons]
    cases hp : parsedNonzeroID s with
    | none =>
      simp only [hp]
      exact ih acc
    | some v =>
      simp only [hp]
      rw [List.foldl_cons]
      exact ih (minStep acc v)

theorem minIDFold_eq_foldl (sets : List (List String)) :
    minIDFold sets = (allParsedIDs sets).foldl minStep 0 := by
  suffices h : ∀ acc : Nat,
      sets.foldl
        (fun acc set =>
          set.foldl
            (fun a id =>
              match parsedNonzeroID id with
              | none => a
              | some v => minStep a v)
            acc)
        acc = (allParsedIDs sets).foldl minStep acc by
    exact h 0
  induction sets with
  | nil =>
    intro acc
    rfl
  | cons set rest ih =>
    intro acc
    rw [List.foldl_cons]
    have hall : allParsedIDs (set :: rest) =
        set.filterMap parsedNonzeroID ++ allParsedIDs rest := by
      simp [allParsedIDs]
    rw [hall, List.foldl_append, inner_fold_eq]
    exact ih _

theorem foldl_minStep_pos (l : List Nat) (acc : Nat) (hacc : acc ≠ 0)
    (hl : ∀ v ∈ l, v ≠ 0) :
    (l.foldl minStep acc = acc ∨ l.foldl minStep acc ∈ l) ∧
    l.foldl minStep acc ≤ acc ∧
    (∀ v ∈ l, l.foldl minStep acc ≤ v) ∧
    l.foldl minStep acc ≠ 0 := by
  induction l generalizing acc with
  | nil => exact ⟨Or.inl rfl, le_refl _, by simp, hacc⟩
  | cons v rest ih =>
    have hv : v ≠ 0 := hl v (by simp)
    have hrest : ∀ w ∈ rest, w ≠ 0 := fun w hw => hl w (by simp [hw])
    rw [List.foldl_cons]
    have hacc2ne : minStep acc v ≠ 0 := by
      by_cases h : acc = 0 ∨ v < acc
      · rw [minStep, if_pos h]
        exact hv
      · rw [minStep, if_neg h]
        exact hacc
    have hacc2le : minStep acc v ≤ acc := by
      by_cases h : acc = 0 ∨ v < acc
      · rw [minStep, if_pos h]
        rcases h with h0 | hlt
        · exact absurd h0 hacc
        · omega
      · rw [minStep, if_neg h]
    have hacc2v : minStep acc v ≤ v := by
      by_cases h : acc = 0 ∨ v < acc
      · rw [minStep, if_pos h]
      · rw [minStep, if_neg h]
        push_neg at h
        omega
    have hmem2 : minStep acc v = acc ∨ minStep acc v = v := by
      by_cases h : acc = 0 ∨ v < acc
      · rw [minStep, if_pos h]
        exact Or.inr rfl
      · rw [minStep, if_neg h]
        exact Or.inl rfl
    obtain ⟨hm, hle, hall, hne⟩ := ih (minStep acc v) hacc2ne hrest
    refine ⟨?_, ?_, ?_, hne⟩
    · rcases hm with h | h
      · rcases hmem2 with h2 | h2
        · exact Or.inl (by rw [h, h2])
        · exact Or.inr (by rw [h, h2]; exact List.mem_cons_self _ _)
      · exact Or.inr (List.mem_cons_of_mem _ h)
    · exact le_trans hle hacc2le
    · intro w hw
      rcases List.mem_cons.mp hw with rfl | hw2
      · exact le_trans hle hacc2v
      · exact hall w hw2

theorem foldl_minStep_zero (l : List Nat) (hl : ∀ v ∈ l, v ≠ 0) :
    (l.foldl minStep 0 = 0 ↔ l = []) ∧
    (l ≠ [] → l.foldl minStep 0 ∈ l ∧ ∀ v ∈ l, l.foldl minStep 0 ≤ v) := by
  cases l with
  | nil => simp
  | cons v rest =>
    have hv : v ≠ 0 := hl v (by simp)
    have hrest : ∀ w ∈ rest, w ≠ 0 := fun w hw => hl w (by simp [hw])
    rw [List.foldl_cons]
    have h0 : minStep 0 v = v := by
      rw [minStep, if_pos (Or.inl rfl)]
    rw [h0]
    obtain ⟨hm, hle, hall, hne⟩ := foldl_minStep_pos rest v hv hrest
    constructor
    · simp [hne]
    · intro _
      refine ⟨?_, ?_⟩
      · rcases hm with h | h
        · rw [h]
          exact List.mem_cons_self _ _
        · exact List.mem_cons_of_mem _ h
      · intro w hw
        rcases List.mem_cons.mp hw with rfl | hw2
        · exact hle
        · exact hall w hw2

theorem parsedNonzeroID_ne_zero {id : String} {v : Nat}
    (h : parsedNonzeroID id = some v) : v ≠ 0 := by
  rw [parsedNonzeroID] at h
  cases hp : parseGoUint id with
  | none => rw [hp] at h; cases h
  | some w =>
    rw [hp] at h
    have h2 : (if w = 0 then (none : Option Nat) else some w) = some v := h
    by_cases hw : w = 0
    · rw [if_pos hw] at h2
      cases h2
    · rw [if_neg hw] at h2
      cases h2
      exact hw

theorem mem_allParsedIDs {sets : List (List String)} {v : Nat} :
    v ∈ allParsedIDs sets ↔ ∃ set ∈ sets, ∃ id ∈ set, parsedNonzeroID id = some v := by
  rw [allParsedIDs]
  constructor
  · intro h
    obtain ⟨l, hl, hv⟩ := List.mem_flatten.mp h
    obtain ⟨set, hset, rfl⟩ := List.mem_map.mp hl
    obtain ⟨id, hid, hp⟩ := List.mem_filterMap.mp hv
    exact ⟨set, hset, id, hid, hp⟩
  · rintro ⟨set, hset, id, hid, hp⟩
    exact List.mem_flatten.mpr ⟨set.filterMap parsedNonzeroID,
      List.mem_map.mpr ⟨set, hset, rfl⟩, List.mem_filterMap.mpr ⟨id, hid, hp⟩⟩

theorem allParsedIDs_nonzero {sets : List (List String)} :
    ∀ v ∈ allParsedIDs sets, v ≠ 0 := by
  intro v hv
  obtain ⟨set, _, id, _, hp⟩ := mem_allParsedIDs.mp hv
  exact parsedNonzeroID_ne_zero hp

theorem allParsedIDs_eq_nil_iff {sets : List (List String)} :
    allParsedIDs sets = [] ↔ ∀ set ∈ sets, ∀ id ∈ set, parsedNonzeroID id = none := by
  constructor
  · intro h set hset id hid
    cases hp : parsedNonzeroID id with
    | none => rfl
    | some v =>
      have : v ∈ allParsedIDs sets := mem_allParsedIDs.mpr ⟨set, hset, id, hid, hp⟩
      rw [h] at this
      cases this
  · intro h
    cases h' : allParsedIDs sets with
    | nil => rfl
    | cons v rest =>
      have hv : v ∈ allParsedIDs sets := by rw [h']; exact List.mem_cons_self _ _
      obtain ⟨set, hset, id, hid, hp⟩ := mem_allParsedIDs.mp hv
      rw [h set hset id hid] at hp
      cases hp

theorem decodeTimeSec_mono {a b : Nat} (h : a ≤ b) :
    decodeTimeSec a ≤ decodeTimeSec b := by
  rw [decodeTimeSec, decodeTimeSec]
  have hd : (1356998400000 + a / 4194304) / 1000 ≤ (1356998400000 + b / 4194304) / 1000 :=
    Nat.div_le_div_right (Nat.add_le_add_left (Nat.div_le_div_right h) _)
  exact_mod_cast hd

theorem decodeTimeSec_lower (v : Nat) : (1356998400 : Int) ≤ decodeTimeSec v := by
  rw [decodeTimeSec]
  have hd : 1356998400000 / 1000 ≤ (1356998400000 + v / 4194304) / 1000 :=
    Nat.div_le_div_right (Nat.le_add_right _ _)
  have h0 : (1356998400000 : Nat) / 1000 = 1356998400 := by norm_num
  rw [h0] at hd
  exact_mod_cast hd

theorem minIDFold_spec (sets : List (List String)) :
    (minIDFold sets = 0 ↔ allParsedIDs sets = []) ∧
    (allParsedIDs sets ≠ [] →
      minIDFold sets ∈ allParsedIDs sets ∧
      ∀ v ∈ allParsedIDs sets, minIDFold sets ≤ v) := by
  rw [minIDFold_eq_foldl]
  exact foldl_minStep_zero _ allParsedIDs_nonzero

theorem extract_spec_core (sets : List (List String)) :
    (extractSinceUnixFromIDs sets = 0 ↔
      ∀ set ∈ sets, ∀ id ∈ set, parsedNonzeroID id = none) ∧
    (∀ set ∈ sets, ∀ id ∈ set, ∀ v, parsedNonzeroID id = some v →
      extractSinceUnixFromIDs sets ≤ decodeTimeSec v - 300) ∧
    ((∃ set ∈ sets, ∃ id ∈ set, parsedNonzeroID id ≠ none) →
      ∃ set ∈ sets, ∃ id ∈ set, ∃ v, parsedNonzeroID id = some v ∧
        extractSinceUnixFromIDs sets = decodeTimeSec v - 300) := by
  have hmz := (minIDFold_spec sets).1
  refine ⟨?_, ?_, ?_⟩
  · by_cases hm : minIDFold sets = 0
    · rw [extractSinceUnixFromIDs, if_pos hm]
      simp only [eq_self_iff_true, true_iff]
      exact allParsedIDs_eq_nil_iff.mp (hmz.mp hm)
    · rw [extractSinceUnixFromIDs, if_neg hm]
      constructor
      · intro habs
        have := decodeTimeSec_lower (minIDFold sets)
        omega
      · intro hall
        exact absurd (hmz.mpr (allParsedIDs_eq_nil_iff.mpr hall)) hm
  · intro set hset id hid v hv
    have hvmem : v ∈ allParsedIDs sets :=
      mem_allParsedIDs.mpr ⟨set, hset, id, hid, hv⟩
    have hne : allParsedIDs sets ≠ [] := by
      intro h
      rw [h] at hvmem
      cases hvmem
    have hm : minIDFold sets ≠ 0 := fun h => hne (hmz.mp h)
    obtain ⟨_, hmin⟩ := (minIDFold_spec sets).2 hne
    rw [extractSinceUnixFromIDs, if_neg hm]
    have := decodeTimeSec_mono (hmin v hvmem)
    omega
  · rintro ⟨set, hset, id, hid, hp⟩
    cases hv : parsedNonzeroID id with
    | none => exact absurd hv hp
    | some v =>
      have hvmem : v ∈ allParsedIDs sets :=
        mem_allParsedIDs.mpr ⟨set, hset, id, hid, hv⟩
      have hne : allParsedIDs sets ≠ [] := by
        intro h
        rw [h] at hvmem
        cases hvmem
      have hm : minIDFold sets ≠ 0 := fun h => hne (hmz.mp h)
      obtain ⟨hmem, _⟩ := (minIDFold_spec sets).2 hne
      obtain ⟨set2, hset2, id2, hid2, hp2⟩ := mem_allParsedIDs.mp hmem
      exact ⟨set2, hset2, id2, hid2, minIDFold sets, hp2,
        by rw [extractSinceUnixFromIDs, if_neg hm]⟩

/-- C5: the decoder returns 0 exactly when no identifier of any set
parses to a nonzero unsigned integer (in particular for empty sets);
otherwise it returns the minimum decoded creation time over the parsable
identifiers minus the fixed 300 second safety margin — it is a lower
bound of every parsable identifier's decoded time minus 300, and is
attained at one of them; unparsable and zero identifiers never
contribute. -/
theorem extract_since_unix_spec (sets : List (List String)) :
    (extractSinceUnixFromIDs sets = 0 ↔
      ∀ set ∈ sets, ∀ id ∈ set, parsedNonzeroID id = none) ∧
    (∀ set ∈ sets, ∀ id ∈ set, ∀ v, parsedNonzeroID id = some v →
      extractSinceUnixFromIDs sets ≤ decodeTimeSec v - 300) ∧
    ((∃ set ∈ sets, ∃ id ∈ set, parsedNonzeroID id ≠ none) →
      ∃ set ∈ sets, ∃ id ∈ set, ∃ v, parsedNonzeroID id = some v ∧
        extractSinceUnixFromIDs sets = decodeTimeSec v - 300) :=
  extract_spec_core sets

theorem extract_since_unix_spec_witness :
    extractSinceUnixFromIDs [["4194304000000"]] ≤ decodeTimeSec 4194304000000 - 300 :=
  (extract_since_unix_spec [["4194304000000"]]).2.1 ["4194304000000"] (by decide)
    "4194304000000" (by decide) 4194304000000 (by decide)

/-- C4 (amended): the scan lower bound of
handleGetUnprocessedNotifications is the earliest time decoded from the
processed and retry ID sets together (not from the processed set alone):
whenever some id of either set parses, the bound is the minimum decoded
time minus 300 over both sets; only when no id of either set parses does
it fall back directly to now - since_hours*3600 with since_hours
defaulting to 48 — there is no last-scan-time based fallback. -/
theorem compute_since_unix_spec (p r : List String) (shRaw now : Int) :
    ((∀ id ∈ p ++ r, parsedNonzeroID id = none) →
      computeSinceUnix p r shRaw now = now - (if shRaw ≤ 0 then 48 else shRaw) * 3600) ∧
    (∀ id ∈ p ++ r, ∀ v, parsedNonzeroID id = some v →
      computeSinceUnix p r shRaw now ≤ decodeTimeSec v - 300 ∧
      ∃ id2 ∈ p ++ r, ∃ w, parsedNonzeroID id2 = some w ∧
        computeSinceUnix p r shRaw now = decodeTimeSec w - 300) := by
  have hsets : ∀ set ∈ [p, r], ∀ id ∈ set, id ∈ p ++ r := by
    intro set hset id hid
    rcases List.mem_cons.mp hset with rfl | hset2
    · exact List.mem_append.mpr (Or.inl hid)
    · rcases List.mem_cons.mp hset2 with rfl | hset3
      · exact List.mem_append.mpr (Or.inr hid)
      · cases hset3
  constructor
  · intro h
    have hz : extractSinceUnixFromIDs [p, r] = 0 :=
      (extract_spec_core [p, r]).1.mpr
        (fun set hset id hid => h id (hsets set hset id hid))
    rw [computeSinceUnix]
    simp only [hz, if_pos]
  · intro id hid v hv
    have hset : ∃ set ∈ [p, r], id ∈ set := by
      rcases List.mem_append.mp hid with h | h
      · exact ⟨p, by simp, h⟩
      · exact ⟨r, by simp, h⟩
    obtain ⟨set, hsetmem, hidset⟩ := hset
    have hnz : extractSinceUnixFromIDs [p, r] ≠ 0 := by
      intro hz
      have := ((extract_spec_core [p, r]).1.mp hz) set hsetmem id hidset
      rw [this] at hv
      cases hv
    have hcomp : computeSinceUnix p r shRaw now = extractSinceUnixFromIDs [p, r] := by
      rw [computeSinceUnix]
      simp only [hnz, if_neg]
      rfl
    constructor
    · rw [hcomp]
      exact (extract_spec_core [p, r]).2.1 set hsetmem id hidset v hv
    · obtain ⟨set2, hset2, id2, hid2, w, hw, hval⟩ :=
        (extract_spec_core [p, r]).2.2 ⟨set, hsetmem, id, hidset, by rw [hv]; exact fun hc => by cases hc⟩
      exact ⟨id2, hsets set2 hset2 id2 hid2, w, hw, by rw [hcomp, hval]⟩

theorem compute_since_unix_spec_witness :
    computeSinceUnix ["4194304000000"] [] 0 1700000000 ≤ decodeTimeSec 4194304000000 - 300 :=
  ((compute_since_unix_spec ["4194304000000"] [] 0 1700000000).2 "4194304000000"
    (by decide) 4194304000000 (by decide)).1

/-- C4 counterexample: with processed = ["8388608000000"] (which the
decoder maps to 1357000100, a nonzero value) and retry =
["4194304000000"], the handler's scan lower bound is 1356999100 — the
minimum over both sets — and not the earliest time decoded from the
processed IDs alone, contradicting the claim that the bound is derived
from the processed IDs. -/
theorem compute_since_unix_claim_counterexample :
    computeSinceUnix ["8388608000000"] ["4194304000000"] 0 1700000000 = 1356999100 ∧
    extractSinceUnixFromIDs [["8388608000000"]] = 1357000100 ∧
    computeSinceUnix ["8388608000000"] ["4194304000000"] 0 1700000000 ≠
      extractSinceUnixFromIDs [["8388608000000"]] := by decide

/-- C9: every member of retry_ids either appears among the returned
scanned notifications or is listed in the missing-retry block of the
output — no retry id silently vanishes from caller visibility. -/
theorem missing_retry_visibility (retryIDs : List String)
    (notifs : List ScanNotification) (id : String) (h : id ∈ retryIDs) :
    id ∈ seenIDsOf notifs ∨ id ∈ missingRetryIDs retryIDs notifs := by
  by_cases hseen : (seenIDsOf notifs).contains id
  · exact Or.inl (by simpa using hseen)
  · right
    rw [missingRetryIDs]
    refine List.mem_filter.mpr ⟨h, ?_⟩
    simp only [hseen, Bool.not_false]

theorem missing_retry_visibility_witness :
    "z" ∈ seenIDsOf ([] : List ScanNotification) ∨
      "z" ∈ missingRetryIDs ["z"] ([] : List ScanNotification) :=
  missing_retry_visibility ["z"] [] "z" (by decide)

theorem mem_insertID {acc : List String} {s t : String} :
    s ∈ insertID acc t ↔ s ∈ acc ∨ s = t := by
  by_cases h : acc.contains t
  · rw [insertID, if_pos h]
    have ht : t ∈ acc := by simpa using h
    constructor
    · exact Or.inl
    · rintro (hs | rfl)
      · exact hs
      · exact ht
  · rw [insertID, if_neg h]
    simp

theorem mem_parse_arr_fold (elems : List GoValue) (acc : List String) (s : String) :
    s ∈ elems.foldl
        (fun acc e =>
          match e with
          | GoValue.strV t => if t = "" then acc else insertID acc t
          | _ => acc)
        acc ↔
      s ∈ acc ∨ (GoValue.strV s ∈ elems ∧ s ≠ "") := by
  induction elems generalizing acc with
  | nil => simp
  | cons e rest ih =>
    cases e with
    | strV t =>
      by_cases ht : t = ""
      · subst ht
        rw [List.foldl_cons]
        simp only [if_pos rfl]
        rw [ih]
        constructor
        · rintro (h | ⟨hmem, hne⟩)
          · exact Or.inl h
          · exact Or.inr ⟨List.mem_cons_of_mem _ hmem, hne⟩
        · rintro (h | ⟨hmem, hne⟩)
          · exact Or.inl h
          · rcases List.mem_cons.mp hmem with heq | hmem2
            · cases heq
              exact absurd rfl hne
            · exact Or.inr ⟨hmem2, hne⟩
      · rw [List.foldl_cons]
        simp only [if_neg ht]
        rw [ih]
        constructor
        · rintro (h | ⟨hmem, hne⟩)
          · rcases mem_insertID.mp h with hs | rfl
            · exact Or.inl hs
            · exact Or.inr ⟨List.mem_cons_self _ _, ht⟩
          · exact Or.inr ⟨List.mem_cons_of_mem _ hmem, hne⟩
        · rintro (h | ⟨hmem, hne⟩)
          · exact Or.inl (mem_insertID.mpr (Or.inl h))
          · rcases List.mem_cons.mp hmem with heq | hmem2
            · cases heq
              exact Or.inl (mem_insertID.mpr (Or.inr rfl))
            · exact Or.inr ⟨hmem2, hne⟩
    | nullV =>
      rw [List.foldl_cons]
      rw [ih]
      constructor
      · rintro (h | ⟨hmem, hne⟩)
        · exact Or.inl h
        · exact Or.inr ⟨List.mem_cons_of_mem _ hmem, hne⟩
      · rintro (h | ⟨hmem, hne⟩)
        · exact Or.inl h
        · rcases List.mem_cons.mp hmem with heq | hmem2
          · cases heq
          · exact Or.inr ⟨hmem2, hne⟩
    | arrV l =>
      rw [List.foldl_cons]
      rw [ih]
      constructor
      · rintro (h | ⟨hmem, hne⟩)
        · exact Or.inl h
        · exact Or.inr ⟨List.mem_cons_of_mem _ hmem, hne⟩
      · rintro (h | ⟨hmem, hne⟩)
        · exact Or.inl h
        · rcases List.mem_cons.mp hmem with heq | hmem2
          · cases heq
          · exact Or.inr ⟨hmem2, hne⟩
    | otherV =>
      rw [List.foldl_cons]
      rw [ih]
      constructor
      · rintro (h | ⟨hmem, hne⟩)
        · exact Or.inl h
        · exact Or.inr ⟨List.mem_cons_of_mem _ hmem, hne⟩
      · rintro (h | ⟨hmem, hne⟩)
        · exact Or.inl h
        · rcases List.mem_cons.mp hmem with heq | hmem2
          · cases heq
          · exact Or.inr ⟨hmem2, hne⟩

theorem mem_parse_str_fold (parts : List String) (acc : List String) (s : String) :
    s ∈ parts.foldl
        (fun acc part =>
          let idTrimmed := goTrimSpace part
          if idTrimmed = "" then acc else insertID acc idTrimmed)
        acc ↔
      s ∈ acc ∨ (s ≠ "" ∧ ∃ part ∈ parts, goTrimSpace part = s) := by
  induction parts generalizing acc with
  | nil => simp
  | cons part rest ih =>
    rw [List.foldl_cons]
    by_cases hp : goTrimSpace part = ""
    · simp only [hp, if_pos rfl]
      rw [ih]
      constructor
      · rintro (h | ⟨hne, q, hq, hqs⟩)
        · exact Or.inl h
        · exact Or.inr ⟨hne, q, List.mem_cons_of_mem _ hq, hqs⟩
      · rintro (h | ⟨hne, q, hq, hqs⟩)
        · exact Or.inl h
        · rcases List.mem_cons.mp hq with rfl | hq2
          · rw [hp] at hqs
            exact absurd hqs.symm hne
          · exact Or.inr ⟨hne, q, hq2, hqs⟩
    · simp only [if_neg hp]
      rw [ih]
      constructor
      · rintro (h | ⟨hne, q, hq, hqs⟩)
        · rcases mem_insertID.mp h with hs | rfl
          · exact Or.inl hs
          · exact Or.inr ⟨hp, part, List.mem_cons_self _ _, rfl⟩
        · exact Or.inr ⟨hne, q, List.mem_cons_of_mem _ hq, hqs⟩
      · rintro (h | ⟨hne, q, hq, hqs⟩)
        · exact Or.inl (mem_insertID.mpr (Or.inl h))
        · rcases List.mem_cons.mp hq with rfl | hq2
          · exact Or.inl (mem_insertID.mpr (Or.inr hqs.symm))
          · exact Or.inr ⟨hne, q, hq2, hqs⟩

/-- The split of the empty string has exactly one empty part. -/
theorem goSplitComma_empty : goSplitComma "" = [""] := rfl

/-- C10: parseIDSet is total and normalizing — nil and any non-string,
non-array value yield the empty set; a JSON array yields exactly its
non-empty string elements (non-string elements silently dropped); a
string yields exactly the non-empty whitespace-trimmed comma-separated
parts. -/
theorem parse_id_set_total :
    parseIDSet GoValue.nullV = [] ∧
    parseIDSet GoValue.otherV = [] ∧
    (∀ elems s, s ∈ parseIDSet (GoValue.arrV elems) ↔
      GoValue.strV s ∈ elems ∧ s ≠ "") ∧
    (∀ val s, s ∈ parseIDSet (GoValue.strV val) ↔
      s ≠ "" ∧ ∃ part ∈ goSplitComma val, goTrimSpace part = s) := by
  refine ⟨rfl, rfl, ?_, ?_⟩
  · intro elems s
    rw [parseIDSet]
    rw [mem_parse_arr_fold]
    simp
  · intro val s
    by_cases hv : val = ""
    · subst hv
      rw [parseIDSet, if_pos rfl, goSplitComma_empty]
      constructor
      · intro h
        cases h
      · rintro ⟨hne, part, hpart, hps⟩
        rcases List.mem_cons.mp hpart with rfl | h2
        · exact absurd hps.symm (by simpa [goTrimSpace] using hne)
        · cases h2
    · rw [parseIDSet, if_neg hv]
      rw [mem_parse_str_fold]
      simp

theorem parse_id_set_total_witness :
    "x" ∈ parseIDSet (GoValue.arrV [GoValue.strV "x", GoValue.otherV]) :=
  ((parse_id_set_total.2.2.1 [GoValue.strV "x", GoValue.otherV] "x").mpr
    ⟨List.mem_cons_self _ _, by decide⟩)
